import Mathlib

/-!
Verification of the x86 instruction-primitives layer (`src/instructions.rs`).

The source is a flat set of wrappers around single CPU instructions.  The
shallow embedding below models, as Lean functions over `Nat`:

* the 64-bit assembly from the two 32-bit halves delivered by the CPU in
  `edx`/`eax` (`rdtsc`, `rdtscp`, `rdmsr`);
* the high/low split performed by `wrmsr`;
* a model-specific-register bank (`MsrBank`) together with the architectural
  effect of the `rdmsr`/`wrmsr` instructions on it;
* the byte layout of `DescriptorTablePointer` (`repr(C, packed)`: a 2-byte
  `limit` followed by an 8-byte `base`, little-endian as on x86);
* a port latch device for the scalar port operations and the `rep outs` /
  `rep ins` repeated-transfer semantics for the buffered ones;
* the return-channel shapes of the public operations.

Machine integers are `Nat` with explicit `% 2^w` where a cast occurs.
-/

namespace X86

/-- Assembly of a 64-bit value from the 32-bit halves delivered in
`edx` (high) and `eax` (low); the expression
`((high as u64) << 32) | (low as u64)` shared by `rdtsc` (line 80),
`rdtscp` (line 98) and `rdmsr` (line 116). -/
def assembleHalves (high low : Nat) : Nat :=
  (high <<< 32) ||| low

/-- `rdtsc` (lines 74-81): the CPU delivers `low` in `eax` and `high` in
`edx`; the function returns `((high as u64) << 32) | (low as u64)`. -/
def rdtsc (high low : Nat) : Nat :=
  assembleHalves high low

/-- `rdtscp` (lines 92-99): identical assembly of the delivered halves. -/
def rdtscp (high low : Nat) : Nat :=
  assembleHalves high low

/-- A modeled bank of model-specific registers: index to 64-bit value. -/
abbrev MsrBank := Nat → Nat

/-- High half the `rdmsr` instruction delivers in `edx`: bits 32..63 of the
MSR value, as a `u32`. -/
def msrHigh (b : MsrBank) (i : Nat) : Nat :=
  b i / 2 ^ 32 % 2 ^ 32

/-- Low half the `rdmsr` instruction delivers in `eax`: bits 0..31 of the
MSR value, as a `u32`. -/
def msrLow (b : MsrBank) (i : Nat) : Nat :=
  b i % 2 ^ 32

/-- `rdmsr` (lines 111-117) over the modeled bank: the instruction delivers
the two halves of `MSR[msr]` in `edx`/`eax` and the function returns
`((high as u64) << 32) | (low as u64)`. -/
def rdmsr (b : MsrBank) (msr : Nat) : Nat :=
  assembleHalves (msrHigh b msr) (msrLow b msr)

/-- `let low = value as u32;` in `wrmsr` (line 105). -/
def wrmsrLow (value : Nat) : Nat :=
  value % 2 ^ 32

/-- `let high = (value >> 32) as u32;` in `wrmsr` (line 106). -/
def wrmsrHigh (value : Nat) : Nat :=
  (value >>> 32) % 2 ^ 32

/-- Point update of the modeled bank, the architectural effect of the
`wrmsr` instruction: `MSR[i] := edx:eax`. -/
def msrStore (b : MsrBank) (i v : Nat) : MsrBank :=
  fun j => if j = i then v else b j

/-- `wrmsr` (lines 104-108) over the modeled bank: the function splits
`value` into `low`/`high` (lines 105-106), places them in `eax`/`edx`, and
the instruction stores `edx:eax = high * 2^32 + low` into `MSR[msr]`. -/
def wrmsr (b : MsrBank) (msr value : Nat) : MsrBank :=
  msrStore b msr (wrmsrHigh value * 2 ^ 32 + wrmsrLow value)

/-- One MSR access, as issued by the two wrapper functions. -/
inductive MsrInstr
  | readMsr (i : Nat)
  | writeMsr (i : Nat) (v : Nat)

/-- Architectural step of a single MSR access on the modeled bank:
a read returns the assembled value and leaves the bank alone, a write
updates the bank and returns nothing. -/
def msrStep : MsrInstr → MsrBank → MsrBank × Option Nat
  | .readMsr i, b => (b, some (rdmsr b i))
  | .writeMsr i v, b => (wrmsr b i v, none)

/-- `DescriptorTablePointer` (lines 28-35): `limit: u16` then `base: u64`,
declared `repr(C, packed)`. -/
structure DescriptorTablePointer where
  limit : Nat
  base : Nat

/-- The two bytes of a `u16` in x86 native (little-endian) order. -/
def u16Bytes (v : Nat) : List Nat :=
  [v % 2 ^ 8, v / 2 ^ 8 % 2 ^ 8]

/-- The eight bytes of a `u64` in x86 native (little-endian) order. -/
def u64Bytes (v : Nat) : List Nat :=
  [v % 2 ^ 8, v / 2 ^ 8 % 2 ^ 8, v / 2 ^ 16 % 2 ^ 8, v / 2 ^ 24 % 2 ^ 8,
   v / 2 ^ 32 % 2 ^ 8, v / 2 ^ 40 % 2 ^ 8, v / 2 ^ 48 % 2 ^ 8, v / 2 ^ 56 % 2 ^ 8]

/-- In-memory representation of `DescriptorTablePointer` under
`repr(C, packed)`: the `limit` bytes immediately followed by the `base`
bytes, with no padding. -/
def dtpBytes (p : DescriptorTablePointer) : List Nat :=
  u16Bytes p.limit ++ u64Bytes p.base

/-- Little-endian byte-list decoder, to read a field back out of the
representation. -/
def decodeLE (bs : List Nat) : Nat :=
  bs.foldr (fun b acc => b + 2 ^ 8 * acc) 0

/-- A loopback/emulated port device: each port latches the last value
written to it, and a read delivers that latch. -/
abbrev PortLatch := Nat → Nat

/-- `outb` (lines 122-124): the `u8` value placed in `al` is emitted to the
device at `port`. -/
def outb (s : PortLatch) (port val : Nat) : PortLatch :=
  fun p => if p = port then val % 2 ^ 8 else s p

/-- `inb` (lines 127-131): the device delivers the port byte in `al`. -/
def inb (s : PortLatch) (port : Nat) : Nat :=
  s port % 2 ^ 8

/-- `outw` (lines 134-136): the `u16` value bound to the 16-bit register
class is emitted from `ax` to the device at `port`. -/
def outw (s : PortLatch) (port val : Nat) : PortLatch :=
  fun p => if p = port then val % 2 ^ 16 else s p

/-- `inw` (lines 139-143): the device delivers the port word in `ax`. -/
def inw (s : PortLatch) (port : Nat) : Nat :=
  s port % 2 ^ 16

/-- `outl` (lines 146-148): the `u32` value bound to the 32-bit register
class is emitted from `eax` to the device at `port`. -/
def outl (s : PortLatch) (port val : Nat) : PortLatch :=
  fun p => if p = port then val % 2 ^ 32 else s p

/-- `inl` (lines 151-155): the device delivers the port doubleword in
`eax`. -/
def inl (s : PortLatch) (port : Nat) : Nat :=
  s port % 2 ^ 32

/-- `rep outs*` semantics: with `ecx = count` and `esi = ptr`, transfer
`mem[ptr], mem[ptr+1], ...` (element-indexed memory, units of `width`
bits) to the port, one unit per iteration, until `ecx` reaches zero.  The
result is the sequence of units the device receives. -/
def repOuts (width : Nat) (mem : Nat → Nat) (ptr : Nat) : Nat → List Nat
  | 0 => []
  | n + 1 => mem ptr % 2 ^ width :: repOuts width mem (ptr + 1) n

/-- `outsb` (lines 158-162): `ecx := buf.len()`, `esi := buf.as_ptr()`,
then `rep outsb`. -/
def outsb (mem : Nat → Nat) (bufPtr bufLen : Nat) : List Nat :=
  repOuts 8 mem bufPtr bufLen

/-- `outsw` (lines 172-176): `ecx := buf.len()`, then `rep outsw` over the
`u16` elements. -/
def outsw (mem : Nat → Nat) (bufPtr bufLen : Nat) : List Nat :=
  repOuts 16 mem bufPtr bufLen

/-- `outsl` (lines 186-190): `ecx := buf.len()`, then `rep outsl` over the
`u32` elements. -/
def outsl (mem : Nat → Nat) (bufPtr bufLen : Nat) : List Nat :=
  repOuts 32 mem bufPtr bufLen

/-- `rep ins*` semantics: with `ecx = count` and `edi = ptr`, store the
successive units `dev 0, dev 1, ...` delivered by the device into
`mem[ptr], mem[ptr+1], ...`, one unit per iteration.  Returns the final
memory together with the number of unit transfers performed. -/
def repIns (width : Nat) (dev : Nat → Nat) (mem : Nat → Nat) (ptr idx : Nat) :
    Nat → (Nat → Nat) × Nat
  | 0 => (mem, 0)
  | n + 1 =>
    let r := repIns width dev (fun a => if a = ptr then dev idx % 2 ^ width else mem a)
      (ptr + 1) (idx + 1) n
    (r.1, r.2 + 1)

/-- `insb` (lines 165-169): `ecx := buf.len()`, `edi := buf.as_ptr()`,
then `rep insb` writes the delivered bytes into the existing storage. -/
def insb (dev mem : Nat → Nat) (bufPtr bufLen : Nat) : (Nat → Nat) × Nat :=
  repIns 8 dev mem bufPtr 0 bufLen

/-- `insw` (lines 179-183): as `insb` over `u16` elements. -/
def insw (dev mem : Nat → Nat) (bufPtr bufLen : Nat) : (Nat → Nat) × Nat :=
  repIns 16 dev mem bufPtr 0 bufLen

/-- `insl` (lines 193-197): as `insb` over `u32` elements. -/
def insl (dev mem : Nat → Nat) (bufPtr bufLen : Nat) : (Nat → Nat) × Nat :=
  repIns 32 dev mem bufPtr 0 bufLen

/-- Shape of the value a public operation hands back to its caller. -/
inductive RetChannel
  | unitRet
  | scalarRet (bits : Nat)
  | optionRet
  | resultRet
deriving DecidableEq

/-- Whether a return shape is an Option/Result-style error channel. -/
def returnsErrorChannel : RetChannel → Bool
  | .optionRet => true
  | .resultRet => true
  | _ => false

/-- The public operations of `instructions.rs` with their return shapes, as
declared in the source: every one returns either nothing or a plain
scalar. -/
def publicOps : List (String × RetChannel) :=
  [("enable_interrupts", .unitRet),
   ("disable_interrupts", .unitRet),
   ("lgdt", .unitRet),
   ("lldt", .unitRet),
   ("lidt", .unitRet),
   ("load_tss", .unitRet),
   ("halt", .unitRet),
   ("rdtsc", .scalarRet 64),
   ("rdtscp", .scalarRet 64),
   ("wrmsr", .unitRet),
   ("rdmsr", .scalarRet 64),
   ("port.outb", .unitRet),
   ("port.inb", .scalarRet 8),
   ("port.outw", .unitRet),
   ("port.inw", .scalarRet 16),
   ("port.outl", .unitRet),
   ("port.inl", .scalarRet 32),
   ("port.outsb", .unitRet),
   ("port.insb", .unitRet),
   ("port.outsw", .unitRet),
   ("port.insw", .unitRet),
   ("port.outsl", .unitRet),
   ("port.insl", .unitRet)]

/-- Helper: a shifted-or of a high half with a small low half is plain
positional arithmetic. -/
theorem assembleHalves_eq (high low : Nat) (hl : low < 2 ^ 32) :
    assembleHalves high low = high * 2 ^ 32 + low := by
  unfold assembleHalves
  rw [Nat.shiftLeft_eq, Nat.mul_comm high (2 ^ 32)]
  exact (Nat.mul_add_lt_is_or hl high).symm

/-- Helper: `rep outs*` always performs exactly `count` unit transfers. -/
theorem repOuts_length (width : Nat) (mem : Nat → Nat) :
    ∀ n ptr, (repOuts width mem ptr n).length = n := by
  intro n
  induction n with
  | zero => intro ptr; rfl
  | succ k ih =>
    intro ptr
    simp [repOuts, ih (ptr + 1)]

/-- Helper: `rep ins*` always performs exactly `count` unit transfers. -/
theorem repIns_count (width : Nat) (dev : Nat → Nat) :
    ∀ n mem ptr idx, (repIns width dev mem ptr idx n).2 = n := by
  intro n
  induction n with
  | zero => intro mem ptr idx; rfl
  | succ k ih =>
    intro mem ptr idx
    simp [repIns, ih]

/-- Helper: `rep ins*` leaves every address outside `[ptr, ptr + count)`
unchanged. -/
theorem repIns_frame (width : Nat) (dev : Nat → Nat) :
    ∀ n mem ptr idx a, a < ptr ∨ ptr + n ≤ a →
      (repIns width dev mem ptr idx n).1 a = mem a := by
  intro n
  induction n with
  | zero => intro mem ptr idx a _; rfl
  | succ k ih =>
    intro mem ptr idx a ha
    have h1 : a < ptr + 1 ∨ ptr + 1 + k ≤ a := by omega
    have h2 : a ≠ ptr := by omega
    have hunf : (repIns width dev mem ptr idx (k + 1)).1
        = (repIns width dev (fun x => if x = ptr then dev idx % 2 ^ width else mem x)
            (ptr + 1) (idx + 1) k).1 := rfl
    rw [hunf, ih _ (ptr + 1) (idx + 1) a h1]
    simp [h2]

/-- Helper: `rep ins*` stores the `i`-th delivered unit at address
`ptr + i`. -/
theorem repIns_read (width : Nat) (dev : Nat → Nat) :
    ∀ n mem ptr idx i, i < n →
      (repIns width dev mem ptr idx n).1 (ptr + i) = dev (idx + i) % 2 ^ width := by
  intro n
  induction n with
  | zero => intro mem ptr idx i hi; exact absurd hi (Nat.not_lt_zero i)
  | succ k ih =>
    intro mem ptr idx i hi
    have hunf : (repIns width dev mem ptr idx (k + 1)).1
        = (repIns width dev (fun x => if x = ptr then dev idx % 2 ^ width else mem x)
            (ptr + 1) (idx + 1) k).1 := rfl
    rw [hunf]
    cases i with
    | zero =>
      rw [repIns_frame width dev k _ (ptr + 1) (idx + 1) (ptr + 0) (by omega)]
      simp
    | succ j =>
      have h3 : ptr + (j + 1) = (ptr + 1) + j := by omega
      have h4 : (idx + 1) + j = idx + (j + 1) := by omega
      rw [h3, ih _ (ptr + 1) (idx + 1) j (by omega), h4]

/-- C1: for every pair of 32-bit halves (high, low) delivered by the CPU,
each of `rdtsc`, `rdtscp` and `rdmsr` returns `(high << 32) | low`, read
here as the 64-bit value `high * 2^32 + low`; in particular the pair
(0, 0) yields 0 and (0xFFFFFFFF, 0xFFFFFFFF) yields
0xFFFFFFFFFFFFFFFF. -/
theorem c1_read_assembles (high low : Nat) (hh : high < 2 ^ 32) (hl : low < 2 ^ 32) :
    (rdtsc high low = high * 2 ^ 32 + low ∧
     rdtscp high low = high * 2 ^ 32 + low ∧
     ∀ b : MsrBank, ∀ i, rdmsr b i = msrHigh b i * 2 ^ 32 + msrLow b i) ∧
    (rdtsc 0 0 = 0 ∧ rdtscp 0 0 = 0 ∧ rdmsr (fun _ => 0) 0 = 0) ∧
    (rdtsc 0xFFFFFFFF 0xFFFFFFFF = 0xFFFFFFFFFFFFFFFF ∧
     rdtscp 0xFFFFFFFF 0xFFFFFFFF = 0xFFFFFFFFFFFFFFFF ∧
     rdmsr (fun _ => 0xFFFFFFFFFFFFFFFF) 0 = 0xFFFFFFFFFFFFFFFF) := by
  refine ⟨⟨assembleHalves_eq high low hl, assembleHalves_eq high low hl, ?_⟩,
    ⟨rfl, rfl, rfl⟩, ⟨rfl, rfl, rfl⟩⟩
  intro b i
  have h : msrLow b i < 2 ^ 32 := Nat.mod_lt _ (by norm_num)
  exact assembleHalves_eq _ _ h

/-- Witness for C1 at high = 3, low = 5. -/
theorem c1_read_assembles_witness :
    (3 : Nat) < 2 ^ 32 ∧ (5 : Nat) < 2 ^ 32 ∧ rdtsc 3 5 = 3 * 2 ^ 32 + 5 :=
  ⟨by norm_num, by norm_num,
   ((c1_read_assembles 3 5 (by norm_num) (by norm_num)).1).1⟩

/-- C2: for every valid construction, the `repr(C, packed)` representation
of `DescriptorTablePointer` is exactly 10 bytes with no padding: the
16-bit `limit` is the first 2 bytes and the 64-bit `base` the remaining
8, each decodable back to the stored field value. -/
theorem c2_dtp_layout (p : DescriptorTablePointer)
    (hl : p.limit < 2 ^ 16) (hb : p.base < 2 ^ 64) :
    (dtpBytes p).length = 10 ∧
    (dtpBytes p).take 2 = u16Bytes p.limit ∧
    (dtpBytes p).drop 2 = u64Bytes p.base ∧
    decodeLE ((dtpBytes p).take 2) = p.limit ∧
    decodeLE ((dtpBytes p).drop 2) = p.base := by
  refine ⟨rfl, rfl, rfl, ?_, ?_⟩
  · simp only [dtpBytes, u16Bytes, u64Bytes, decodeLE, List.cons_append, List.nil_append,
      List.take, List.foldr]
    omega
  · simp only [dtpBytes, u16Bytes, u64Bytes, decodeLE, List.cons_append, List.nil_append,
      List.drop, List.foldr]
    omega

/-- Witness for C2 at limit = 0x1234, base = 0xFEDCBA98. -/
theorem c2_dtp_layout_witness :
    (0x1234 : Nat) < 2 ^ 16 ∧ (0xFEDCBA98 : Nat) < 2 ^ 64 ∧
    (dtpBytes ⟨0x1234, 0xFEDCBA98⟩).length = 10 :=
  ⟨by norm_num, by norm_num,
   (c2_dtp_layout ⟨0x1234, 0xFEDCBA98⟩ (by norm_num) (by norm_num)).1⟩

/-- C3: for each of the 8-, 16- and 32-bit widths, for every port and
every value of that width, a scalar write followed by a scalar read on
the loopback device returns exactly the written value. -/
theorem c3_scalar_roundtrip (s : PortLatch) (port v : Nat) :
    (v < 2 ^ 8 → inb (outb s port v) port = v) ∧
    (v < 2 ^ 16 → inw (outw s port v) port = v) ∧
    (v < 2 ^ 32 → inl (outl s port v) port = v) := by
  refine ⟨fun h => ?_, fun h => ?_, fun h => ?_⟩
  · simp [inb, outb]
    omega
  · simp [inw, outw]
    omega
  · simp [inl, outl]
    omega

/-- Witness for C3: an 8-bit round trip on port 0x60. -/
theorem c3_scalar_roundtrip_witness :
    (0xAB : Nat) < 2 ^ 8 ∧ inb (outb (fun _ => 0) 0x60 0xAB) 0x60 = 0xAB :=
  ⟨by norm_num, (c3_scalar_roundtrip (fun _ => 0) 0x60 0xAB).1 (by norm_num)⟩

/-- C4: every buffered port operation performs a number of unit transfers
exactly equal to the buffer length it was given (the only count the code
passes to `ecx`): length 0 gives zero transfers and length n gives
exactly n. -/
theorem c4_buffered_count (mem dev : Nat → Nat) (ptr n : Nat) :
    (outsb mem ptr n).length = n ∧
    (outsw mem ptr n).length = n ∧
    (outsl mem ptr n).length = n ∧
    (insb dev mem ptr n).2 = n ∧
    (insw dev mem ptr n).2 = n ∧
    (insl dev mem ptr n).2 = n ∧
    outsb mem ptr 0 = [] ∧
    (insb dev mem ptr 0).2 = 0 :=
  ⟨repOuts_length 8 mem n ptr, repOuts_length 16 mem n ptr, repOuts_length 32 mem n ptr,
   repIns_count 8 dev n mem ptr 0, repIns_count 16 dev n mem ptr 0,
   repIns_count 32 dev n mem ptr 0, rfl, rfl⟩

/-- C5: over the modeled MSR bank, writing any 64-bit value with `wrmsr`
and reading the same index back with `rdmsr` returns that value. -/
theorem c5_wrmsr_rdmsr_roundtrip (b : MsrBank) (i v : Nat) (hv : v < 2 ^ 64) :
    rdmsr (wrmsr b i v) i = v := by
  have hlow : msrLow (wrmsr b i v) i < 2 ^ 32 := Nat.mod_lt _ (by norm_num)
  rw [rdmsr, assembleHalves_eq _ _ hlow]
  simp only [msrHigh, msrLow, wrmsr, msrStore, wrmsrHigh, wrmsrLow, if_pos]
  rw [Nat.shiftRight_eq_div_pow]
  omega

/-- Witness for C5 at index 0x1B and value 0x123456789ABCDEF0. -/
theorem c5_wrmsr_rdmsr_roundtrip_witness :
    (0x123456789ABCDEF0 : Nat) < 2 ^ 64 ∧
    rdmsr (wrmsr (fun _ => 0) 0x1B 0x123456789ABCDEF0) 0x1B = 0x123456789ABCDEF0 :=
  ⟨by norm_num,
   c5_wrmsr_rdmsr_roundtrip (fun _ => 0) 0x1B 0x123456789ABCDEF0 (by norm_num)⟩

/-- C6: `wrmsr` splits its 64-bit value into exactly `low = v mod 2^32`
(placed in `eax`) and `high = v >> 32` (placed in `edx`), and
`(high << 32) | low` reconstructs `v`. -/
theorem c6_wrmsr_split (v : Nat) (hv : v < 2 ^ 64) :
    wrmsrLow v = v % 2 ^ 32 ∧
    wrmsrHigh v = v / 2 ^ 32 ∧
    assembleHalves (wrmsrHigh v) (wrmsrLow v) = v := by
  have hlow : wrmsrLow v < 2 ^ 32 := Nat.mod_lt _ (by norm_num)
  refine ⟨rfl, ?_, ?_⟩
  · simp only [wrmsrHigh, Nat.shiftRight_eq_div_pow]
    omega
  · rw [assembleHalves_eq _ _ hlow]
    simp only [wrmsrHigh, wrmsrLow, Nat.shiftRight_eq_div_pow]
    omega

/-- Witness for C6 at v = 0xFEDCBA9876543210. -/
theorem c6_wrmsr_split_witness :
    (0xFEDCBA9876543210 : Nat) < 2 ^ 64 ∧
    wrmsrHigh 0xFEDCBA9876543210 = 0xFEDCBA98 :=
  ⟨by norm_num, by
    have h := (c6_wrmsr_split 0xFEDCBA9876543210 (by norm_num)).2.1
    rw [h]
    norm_num⟩

/-- C7: the buffered reads write directly into the buffer's existing
storage: every address outside `[ptr, ptr + n)` is untouched, and the
`i`-th element of the destination receives the `i`-th delivered unit, so
the region written is exactly the n existing elements and the view never
grows. -/
theorem c7_ins_in_place (dev mem : Nat → Nat) (ptr n : Nat) :
    (∀ a, a < ptr ∨ ptr + n ≤ a →
      (insb dev mem ptr n).1 a = mem a ∧
      (insw dev mem ptr n).1 a = mem a ∧
      (insl dev mem ptr n).1 a = mem a) ∧
    (∀ i, i < n →
      (insb dev mem ptr n).1 (ptr + i) = dev i % 2 ^ 8 ∧
      (insw dev mem ptr n).1 (ptr + i) = dev i % 2 ^ 16 ∧
      (insl dev mem ptr n).1 (ptr + i) = dev i % 2 ^ 32) := by
  constructor
  · intro a ha
    exact ⟨repIns_frame 8 dev n mem ptr 0 a ha, repIns_frame 16 dev n mem ptr 0 a ha,
      repIns_frame 32 dev n mem ptr 0 a ha⟩
  · intro i hi
    refine ⟨?_, ?_, ?_⟩
    · simpa [insb] using repIns_read 8 dev n mem ptr 0 i hi
    · simpa [insw] using repIns_read 16 dev n mem ptr 0 i hi
    · simpa [insl] using repIns_read 32 dev n mem ptr 0 i hi

/-- Witness for C7: a 3-byte read into offset 10 leaves address 5 alone
and stores the second delivered byte at address 11. -/
theorem c7_ins_in_place_witness :
    (insb (fun k => k + 1) (fun _ => 9) 10 3).1 5 = 9 ∧
    (insb (fun k => k + 1) (fun _ => 9) 10 3).1 11 = 2 :=
  ⟨((c7_ins_in_place (fun k => k + 1) (fun _ => 9) 10 3).1 5 (by norm_num)).1,
   by simpa using ((c7_ins_in_place (fun k => k + 1) (fun _ => 9) 10 3).2 1 (by norm_num)).1⟩

/-- C8: no public operation of the layer reports errors through a return
channel: each of the 23 operations returns either nothing or a plain
scalar, never an Option/Result-style value. -/
theorem c8_no_error_channel :
    publicOps.length = 23 ∧
    publicOps.all (fun op => !returnsErrorChannel op.2) = true :=
  ⟨rfl, rfl⟩

/-- C10: over the modeled MSR bank, a `rdmsr` step leaves every register
unchanged, and a `wrmsr` step to index i leaves every other index
unchanged. -/
theorem c10_msr_frame (b : MsrBank) (i j v : Nat) (hj : j ≠ i) :
    (∀ k, (msrStep (.readMsr i) b).1 k = b k) ∧
    (msrStep (.writeMsr i v) b).1 j = b j := by
  refine ⟨fun k => rfl, ?_⟩
  simp [msrStep, wrmsr, msrStore, hj]

/-- Witness for C10: writing index 1 leaves index 2 at its old value 7. -/
theorem c10_msr_frame_witness :
    (2 : Nat) ≠ 1 ∧ (msrStep (.writeMsr 1 5) (fun _ => 7)).1 2 = 7 :=
  ⟨by norm_num, (c10_msr_frame (fun _ => 7) 1 2 5 (by norm_num)).2⟩

end X86
